import Mathlib

/-!
Verification development for the service container and hierarchical command
resolver of the CLI framework.

The repository ships the test suite of the injector ("yok") together with its
consumers (a help command, method decorators, device discovery).  The injector
implementation itself is not among the shipped sources, so the container and
the command trie are modelled from the specification (sections 4.1 - 4.3) and
checked against the behaviours the shipped test suite pins down.  The cache
decorator and the device discovery are embedded directly from their sources.
-/

namespace CliCore

/-! ## Command trie model (hierarchical command resolution) -/

/-- Modelled from the spec: splitting a pipe-delimited command path into
segments (the injector source `yok.ts` is not shipped; only its tests are).
Character-level worker for the split. -/
def splitCharsAux : List Char → List Char → List (List Char)
  | [], acc => [acc.reverse]
  | c :: cs, acc =>
    if c = '|' then acc.reverse :: splitCharsAux cs [] else splitCharsAux cs (c :: acc)

/-- Modelled from the spec: `requireCommand` splits the path string on the
path separator `|` into ordered segments. -/
def splitName (s : String) : List String :=
  (splitCharsAux s.data []).map (fun cs => String.mk cs)

/-- Modelled from the spec: case-insensitive comparison of segment text uses a
lower-cased view of the string. -/
def lower (s : String) : String :=
  String.mk (s.data.map Char.toLower)

/-- Modelled from the spec: trie nodes are keyed by case-insensitive segment
text, so two segments name the same node exactly when their lower-cased
spellings agree. -/
def sameSeg (a b : String) : Bool :=
  lower a = lower b

/-- Modelled from the spec: a segment is a wildcard segment when its literal
text begins with the reserved marker `*`. -/
def isWildcard (s : String) : Bool :=
  match s.data with
  | [] => false
  | c :: _ => c = '*'

/-- Modelled from the spec: the namespace of registered command paths; each
registered path is kept as its ordered list of segments, in the original
spelling used at registration time. -/
abbrev CommandPaths := List (List String)

/-- Modelled from the spec: `requireCommand(pathString, modulePath)` inserts
the split path into the command namespace. -/
def requireCommand (R : CommandPaths) (pathString : String) : CommandPaths :=
  R ++ [splitName pathString]

/-- Modelled from the spec: segment-wise case-insensitive test that `p` is an
initial run of the registered path `q`. -/
def isPrefixSeg : List String → List String → Bool
  | [], _ => true
  | _ :: _, [] => false
  | a :: as, b :: bs => sameSeg a b && isPrefixSeg as bs

/-- Modelled from the spec: a registered full name is the pipe-joined spelling
of its segments. -/
def joinSegs : List String → String
  | [] => ""
  | [s] => s
  | s :: rest => s ++ "|" ++ joinSegs rest

/-- Modelled from the spec: the `CommandEntry` attached at the trie node whose
path from the root is `p`, if a command was registered exactly there; the
entry carries the registered full name in its original spelling. -/
def entryAt (R : CommandPaths) (p : List String) : Option String :=
  (R.find? (fun q => isPrefixSeg p q && q.length == p.length)).map joinSegs

/-- Modelled from the spec: the labels of the children of the trie node at
path `p` (next segments of registered paths extending `p`). -/
def nextSegs (R : CommandPaths) (p : List String) : List String :=
  R.filterMap (fun q => if isPrefixSeg p q then (q.drop p.length).head? else none)

/-- Modelled from the spec: child selection at one depth of the walk; an exact
(case-insensitive) label match among non-wildcard children is preferred, and
otherwise the wildcard child, if one exists, matches any token. -/
def findChild (R : CommandPaths) (p : List String) (t : String) : Option String :=
  match (nextSegs R p).find? (fun s => !isWildcard s && sameSeg t s) with
  | some s => some s
  | none => (nextSegs R p).find? (fun s => isWildcard s)

/-- Modelled from the spec: record the entry attached at the node `p`, at
depth `depth`, as the new deepest entry seen, keeping the previous best when
the node carries no entry. -/
def noteEntry (R : CommandPaths) (p : List String) (depth : Nat)
    (best : Option (String × Nat)) : Option (String × Nat) :=
  match entryAt R p with
  | some fn => some (fn, depth)
  | none => best

/-- Modelled from the spec: the depth-by-depth walk of
`buildHierarchicalCommand`; it tracks the deepest visited node carrying an
attached `CommandEntry` together with that node's depth below the base node. -/
def walk (R : CommandPaths) : List String → List String → Nat →
    Option (String × Nat) → Option (String × Nat)
  | p, [], depth, best => noteEntry R p depth best
  | p, t :: rest, depth, best =>
    match findChild R p t with
    | none => noteEntry R p depth best
    | some s => walk R (p ++ [s]) rest (depth + 1) (noteEntry R p depth best)

/-- Modelled from the spec: does the node for `base` exist and carry at least
one descendant in the trie (i.e. is some hierarchical path registered below
that base name)? -/
def hasDescendants (R : CommandPaths) (base : String) : Bool :=
  R.any (fun q => isPrefixSeg [base] q && decide (2 ≤ q.length))

/-- Modelled from the spec: `buildHierarchicalCommand(baseName, args)` -- the
longest-prefix hierarchical resolution.  Returns the sentinel `none` ("no
match") when `args` is empty, when no hierarchical registration lives below
`baseName`, or when no visited node carries an entry; otherwise returns the
deepest attached full name and `args` with the first `k` tokens removed, `k`
being that node's depth. -/
def buildHierarchicalCommand (R : CommandPaths) (base : String) (args : List String) :
    Option (String × List String) :=
  if args.isEmpty ∨ hasDescendants R base = false then none
  else
    match walk R [base] args 0 none with
    | none => none
    | some (fn, k) => some (fn, args.drop k)

/-- The registrations of the "most applicable hierarchical command" scenario:
`a|b`, `a|b|c`, `a|b|c|d`, `a|b|c|d|e`. -/
def regDeep : CommandPaths :=
  requireCommand (requireCommand (requireCommand (requireCommand [] "a|b") "a|b|c") "a|b|c|d") "a|b|c|d|e"

/-- Registrations with a single two-segment command `sample|command`. -/
def regSample : CommandPaths :=
  requireCommand [] "sample|command"

/-- Registrations with a single wildcard command `a|*b`. -/
def regWild : CommandPaths :=
  requireCommand [] "a|*b"

/-- Registrations with a single two-segment command `a|b`. -/
def regAB : CommandPaths :=
  requireCommand [] "a|b"

/-! ## Dependency resolver model (registration store, singleton cache,
deferred registration, disposal) -/

/-- Modelled from the spec: a constructed instance; `id` stands for object
identity (two instances are the identical object exactly when their ids
agree) and `hasDispose` records whether the instance exposes the disposal
capability. -/
structure Inst where
  id : Nat
  hasDispose : Bool
deriving DecidableEq

/-- Modelled from the spec: a registered payload is a pre-built value, a
factory, or a constructible type with its declared dependency names. -/
inductive Payload where
  | value (i : Inst)
  | factory (hasDispose : Bool)
  | construct (deps : List String) (hasDispose : Bool)
deriving DecidableEq

/-- Modelled from the spec: the error taxonomy of the resolver. -/
inductive RErr where
  | unresolved (name : String)
  | circular
  | duplicateRegistration
deriving DecidableEq

/-- Modelled from the spec: the container state -- the registration store
(direct registrations, command registrations and deferred registrations),
the singleton cache, a fresh-identity counter, and the ordered log of
disposal-hook invocations. -/
structure Container where
  regs : List (String × Payload)
  commands : List (String × Payload)
  deferred : List (String × String)
  cache : List (String × Inst)
  nextId : Nat
  disposeLog : List Nat
deriving DecidableEq

/-- First-match association lookup (JavaScript object property access). -/
def lookupS {β : Type} (k : String) : List (String × β) → Option β
  | [] => none
  | (k', v) :: rest => if k = k' then some v else lookupS k rest

/-- Modelled from the spec: construct a brand-new instance (fresh object
identity). -/
def freshInst (c : Container) (hd : Bool) : Inst × Container :=
  (⟨c.nextId, hd⟩, { c with nextId := c.nextId + 1 })

/-- Modelled from the spec: cache a resolved instance under its name. -/
def cacheAdd (c : Container) (name : String) (i : Inst) : Container :=
  { c with cache := (name, i) :: c.cache }

/-- Modelled from the spec: resolve every declared dependency name in order,
threading the container state, with `res` resolving a single name. -/
def resolveManyWith (res : Container → String → Except RErr (Inst × Container)) :
    Container → List String → Except RErr Container
  | c, [] => .ok c
  | c, d :: ds =>
    match res c d with
    | .error e => .error e
    | .ok (_, c') => resolveManyWith res c' ds

/-- Modelled from the spec: materialise a payload -- a pre-built value is
returned as-is, a factory constructs a fresh instance, and a constructible
type first resolves its declared dependencies and then constructs. -/
def resolvePayloadWith (res : Container → String → Except RErr (Inst × Container))
    (c : Container) : Payload → Except RErr (Inst × Container)
  | .value i => .ok (i, c)
  | .factory hd => .ok (freshInst c hd)
  | .construct deps hd =>
    match resolveManyWith res c deps with
    | .error e => .error e
    | .ok c' => .ok (freshInst c' hd)

/-- Modelled from the spec: one step of `resolve(name)` -- a cached singleton
is returned unchanged; otherwise the registered payload (or the deferred
module) is materialised and cached under the name; an unknown name fails
with `UnresolvedDependency`. -/
def resolveStep (res : Container → String → Except RErr (Inst × Container))
    (c : Container) (name : String) : Except RErr (Inst × Container) :=
  match lookupS name c.cache with
  | some i => .ok (i, c)
  | none =>
    match lookupS name c.regs with
    | some p =>
      match resolvePayloadWith res c p with
      | .error e => .error e
      | .ok (i, c') => .ok (i, cacheAdd c' name i)
    | none =>
      match lookupS name c.deferred with
      | some _ =>
        let ic := freshInst c false
        .ok (ic.1, cacheAdd ic.2 name ic.1)
      | none => .error (.unresolved name)

/-- Modelled from the spec: `resolve(name)`, with `fuel` bounding the
resolution depth -- exhausting it models the cycle detector firing with a
`CircularDependency` error. -/
def resolveName : Nat → Container → String → Except RErr (Inst × Container)
  | 0 => fun _ _ => .error .circular
  | fuel + 1 => resolveStep (resolveName fuel)

/-- Modelled from the spec: `resolveCommand(name)` -- the sentinel "not
found" result (`none`, never an error) for a name that was never registered
as a command, and otherwise the materialised command instance, any
construction failure propagating unchanged. -/
def resolveCommand (fuel : Nat) (c : Container) (name : String) :
    Except RErr (Option Inst × Container) :=
  match lookupS name c.commands with
  | none => .ok (none, c)
  | some p =>
    match resolvePayloadWith (resolveName fuel) c p with
    | .error e => .error e
    | .ok (i, c') => .ok (some i, cacheAdd c' name i)

/-- Modelled from the spec: `require(name, modulePath)` (deferred
registration) -- a second deferred registration for the same name fails with
`DuplicateRegistration`. -/
def requireDeferred (c : Container) (name modulePath : String) :
    Except RErr Container :=
  match lookupS name c.deferred with
  | some _ => .error .duplicateRegistration
  | none => .ok { c with deferred := (name, modulePath) :: c.deferred }

/-- Modelled from the spec: the ids whose disposal hook a `dispose()` pass
invokes, in order: every cached instance exposing the capability whose hook
has not already run. -/
def pendingDispose : List (String × Inst) → List Nat → List Nat
  | [], _ => []
  | (_, i) :: rest, log =>
    if i.hasDispose = true ∧ i.id ∉ log then
      i.id :: pendingDispose rest (log ++ [i.id])
    else pendingDispose rest log

/-- Modelled from the spec: `dispose()` invokes the disposal capability on
every resolved-and-cached instance whose hook has not yet run, appending each
invocation to the log. -/
def dispose (c : Container) : Container :=
  { c with disposeLog := c.disposeLog ++ pendingDispose c.cache c.disposeLog }

/-- The demo container for C2: a single pre-built value registered as
`foo`. -/
def demoValue : Container :=
  ⟨[("foo", .value ⟨7, false⟩)], [], [], [], 0, []⟩

/-- The demo container for C3: a command `command` whose constructible type
declares an unregistered dependency `whatever`. -/
def demoCommand : Container :=
  ⟨[], [("command", .construct ["whatever"] false)], [], [], 0, []⟩

/-! ## The `cache()` method decorator (decorators source file)

The decorated method shares one closure variable `result` across every
instance of the class, while the `__isCalled_<key>__` guard flag is stored on
`this`, i.e. per instance.  Instances are numbered by object identity and the
original method body is an arbitrary pure function of the instance and the
argument list. -/

/-- The mutable state the decorated method closes over: the shared closure
variable `result`, the set of instances whose `__isCalled_<key>__` flag is
set, and the log of executions of the original body (instance, arguments). -/
structure CacheState where
  result : Option Nat
  called : List Nat
  log : List (Nat × List Nat)
deriving DecidableEq

/-- State before any call of the decorated method. -/
def initCache : CacheState :=
  ⟨none, [], []⟩

/-- One call of a method decorated with `cache()` on instance `inst` with
arguments `args`: when the instance's flag is unset, set it, run the original
body and store its result in the shared closure variable; in every case
return the shared closure variable. -/
def cachedCall (body : Nat → List Nat → Nat) (s : CacheState) (inst : Nat)
    (args : List Nat) : Option Nat × CacheState :=
  if inst ∈ s.called then (s.result, s)
  else
    let r := body inst args
    (some r, ⟨some r, inst :: s.called, s.log ++ [(inst, args)]⟩)

/-- A sequence of calls of the decorated method. -/
def runCalls (body : Nat → List Nat → Nat) : CacheState → List (Nat × List Nat) → CacheState
  | s, [] => s
  | s, (i, a) :: rest => runCalls body (cachedCall body s i a).2 rest

/-- How many times the original body has run on instance `inst`. -/
def execCount (s : CacheState) (inst : Nat) : Nat :=
  s.log.countP (fun e => e.1 == inst)

/-- The per-instance invariant of the decorated method: the body has run at
most once per instance, and not at all on instances whose flag is unset. -/
def CacheInv (s : CacheState) : Prop :=
  ∀ inst, execCount s inst ≤ 1 ∧ (inst ∉ s.called → execCount s inst = 0)

/-! ## Device discovery (device-discovery.ts) -/

/-- A discovered device; `devId` is what `getIdentifier()` returns. -/
structure Device where
  devId : String
deriving DecidableEq

/-- The observable state of a `DeviceDiscovery`: the identifier-keyed devices
map and the dispatch logs of the `deviceFound` and `deviceLost` signals. -/
structure DDState where
  devices : List (String × Device)
  foundLog : List Device
  lostLog : List Device
deriving DecidableEq

/-- The method `addDevice`: store the device under its identifier and dispatch
`deviceFound`. -/
def addDevice (s : DDState) (d : Device) : DDState :=
  { s with devices := (d.devId, d) :: s.devices.filter (fun e => e.1 != d.devId),
           foundLog := s.foundLog ++ [d] }

/-- The method `removeDevice(deviceIdentifier)`: look the identifier up in the devices
map; when absent, return at once; when present, delete the key and dispatch
`deviceLost` with the removed device. -/
def removeDevice (s : DDState) (devId : String) : DDState :=
  match lookupS devId s.devices with
  | none => s
  | some d =>
    { s with devices := s.devices.filter (fun e => e.1 != devId),
             lostLog := s.lostLog ++ [d] }

/-- An entry found at a node is the join of a registered path. -/
lemma entryAt_mem {R : CommandPaths} {p : List String} {fn : String}
    (h : entryAt R p = some fn) : fn ∈ R.map joinSegs := by
  unfold entryAt at h
  cases hf : R.find? (fun q => isPrefixSeg p q && q.length == p.length) with
  | none => rw [hf] at h; simp at h
  | some q =>
    rw [hf] at h
    simp only [Option.map_some', Option.some.injEq] at h
    subst h
    exact List.mem_map_of_mem _ (List.mem_of_find?_eq_some hf)

/-- Recording an entry preserves the invariant that the tracked best full
name, if any, is a registered full name. -/
lemma noteEntry_mem {R : CommandPaths} {p : List String} {depth : Nat}
    {best : Option (String × Nat)} {fn : String} {k : Nat}
    (hbest : ∀ fn0 k0, best = some (fn0, k0) → fn0 ∈ R.map joinSegs)
    (h : noteEntry R p depth best = some (fn, k)) : fn ∈ R.map joinSegs := by
  unfold noteEntry at h
  cases he : entryAt R p with
  | none => rw [he] at h; exact hbest fn k h
  | some fn0 =>
    rw [he] at h
    simp only [Option.some.injEq, Prod.mk.injEq] at h
    exact h.1 ▸ entryAt_mem he

/-- The walk only ever reports a registered full name. -/
lemma walk_mem {R : CommandPaths} :
    ∀ (toks p : List String) (depth : Nat) (best : Option (String × Nat))
      (fn : String) (k : Nat),
      (∀ fn0 k0, best = some (fn0, k0) → fn0 ∈ R.map joinSegs) →
      walk R p toks depth best = some (fn, k) → fn ∈ R.map joinSegs := by
  intro toks
  induction toks with
  | nil =>
    intro p depth best fn k hbest h
    exact noteEntry_mem hbest h
  | cons t rest ih =>
    intro p depth best fn k hbest h
    rw [walk] at h
    cases hc : findChild R p t with
    | none => rw [hc] at h; exact noteEntry_mem hbest h
    | some s =>
      rw [hc] at h
      exact ih (p ++ [s]) (depth + 1) _ fn k (fun fn0 k0 h0 => noteEntry_mem hbest h0) h

/-- C1: `buildHierarchicalCommand` returns the full name attached at the
deepest visited entry node together with the argument list with exactly the
first `k` tokens removed (`k` the depth of that node): in general the
returned name is one of the registered full names and the remaining
arguments are a suffix of `args` obtained by dropping the walk's reported
depth, and on the registrations `a|b`, `a|b|c`, `a|b|c|d`, `a|b|c|d|e` the
calls from the claim produce `a|b|c|d|e` with `["x","y"]` left over and
`a|b` with nothing left over. -/
theorem buildHierarchicalCommand_deepest_entry :
    (∀ (R : CommandPaths) (base : String) (args : List String) (fn : String)
        (rem : List String),
        buildHierarchicalCommand R base args = some (fn, rem) →
        fn ∈ R.map joinSegs ∧
          ∃ k, walk R [base] args 0 none = some (fn, k) ∧ rem = args.drop k) ∧
    buildHierarchicalCommand regDeep "a" ["b", "c", "d", "e", "x", "y"] =
      some ("a|b|c|d|e", ["x", "y"]) ∧
    buildHierarchicalCommand regDeep "a" ["b"] = some ("a|b", []) := by
  refine ⟨?_, by decide, by decide⟩
  intro R base args fn rem h
  unfold buildHierarchicalCommand at h
  split at h
  · exact absurd h (by simp)
  · cases hw : walk R [base] args 0 none with
    | none => rw [hw] at h; exact absurd h (by simp)
    | some pr =>
      obtain ⟨fn0, k⟩ := pr
      rw [hw] at h
      simp only [Option.some.injEq, Prod.mk.injEq] at h
      obtain ⟨rfl, rfl⟩ := h
      exact ⟨walk_mem args [base] 0 none fn0 k (by simp) hw, ⟨k, rfl, rfl⟩⟩

/-- Witness for C1's general part, instantiated at the deep registrations. -/
theorem buildHierarchicalCommand_deepest_entry_witness :
    "a|b|c|d|e" ∈ regDeep.map joinSegs ∧
      ∃ k, walk regDeep ["a"] ["b", "c", "d", "e", "x", "y"] 0 none =
          some ("a|b|c|d|e", k) ∧
        (["x", "y"] : List String) = (["b", "c", "d", "e", "x", "y"] : List String).drop k :=
  buildHierarchicalCommand_deepest_entry.1 regDeep "a" ["b", "c", "d", "e", "x", "y"]
    "a|b|c|d|e" ["x", "y"] (by decide)

/-- C4: a wildcard segment (literal text beginning with `*`) matches any
token at its depth, and the returned command name is the registered full
name including the marker: with only `a|*b` registered, resolving `a` with
`["anything"]` yields `a|*b` and no remaining arguments, and with
`["anything","x","y"]` the remaining arguments are `["x","y"]`. -/
theorem buildHierarchicalCommand_wildcard :
    buildHierarchicalCommand regWild "a" ["anything"] = some ("a|*b", []) ∧
    buildHierarchicalCommand regWild "a" ["anything", "x", "y"] =
      some ("a|*b", ["x", "y"]) := by
  constructor <;> decide

/-- C5: `buildHierarchicalCommand` returns the "no match" sentinel (and never
throws) when the argument list is empty, when no registered path starts at
the base name, when the base name carries no hierarchical descendants, or
when no visited node carries an attached entry; in particular a lone
registration `sample|command` resolved from base `command` gives no match. -/
theorem buildHierarchicalCommand_no_match (R : CommandPaths) (base : String)
    (args : List String) :
    (args = [] → buildHierarchicalCommand R base args = none) ∧
    ((∀ q ∈ R, isPrefixSeg [base] q = false) →
      buildHierarchicalCommand R base args = none) ∧
    ((∀ q ∈ R, isPrefixSeg [base] q = true → q.length < 2) →
      buildHierarchicalCommand R base args = none) ∧
    (walk R [base] args 0 none = none →
      buildHierarchicalCommand R base args = none) ∧
    buildHierarchicalCommand regSample "command" ["subCommand"] = none := by
  refine ⟨?_, ?_, ?_, ?_, by decide⟩
  · intro h
    subst h
    simp [buildHierarchicalCommand]
  · intro h
    have hd : hasDescendants R base = false := by
      unfold hasDescendants
      rw [List.any_eq_false]
      intro q hq
      simp [h q hq]
    simp [buildHierarchicalCommand, hd]
  · intro h
    have hd : hasDescendants R base = false := by
      unfold hasDescendants
      rw [List.any_eq_false]
      intro q hq
      cases hp : isPrefixSeg [base] q with
      | false => simp [hp]
      | true =>
        have := h q hq hp
        simp only [Bool.and_eq_true, decide_eq_true_eq]
        omega
    simp [buildHierarchicalCommand, hd]
  · intro h
    unfold buildHierarchicalCommand
    split
    · rfl
    · rw [h]

/-- Witness for C5, instantiated at concrete inputs. -/
theorem buildHierarchicalCommand_no_match_witness :
    buildHierarchicalCommand regSample "sample" [] = none :=
  (buildHierarchicalCommand_no_match regSample "sample" []).1 rfl

/-- After a successful `resolve(name)`, the name is cached and maps to the
returned instance. -/
lemma resolveName_cached {fuel : Nat} {c c1 : Container} {name : String} {i : Inst}
    (h : resolveName fuel c name = .ok (i, c1)) : lookupS name c1.cache = some i := by
  cases fuel with
  | zero => exact absurd h (by simp [resolveName])
  | succ m =>
    rw [resolveName, resolveStep] at h
    split at h
    next i0 hc =>
      simp only [Except.ok.injEq, Prod.mk.injEq] at h
      obtain ⟨rfl, rfl⟩ := h
      exact hc
    next hc =>
      split at h
      next p hr =>
        split at h
        next e hp => exact absurd h (by simp)
        next i0 c' hp =>
          simp only [Except.ok.injEq, Prod.mk.injEq] at h
          obtain ⟨rfl, rfl⟩ := h
          simp [cacheAdd, lookupS]
      next hr =>
        split at h
        next mp hd =>
          simp only [Except.ok.injEq, Prod.mk.injEq] at h
          obtain ⟨rfl, rfl⟩ := h
          simp [cacheAdd, lookupS]
        next hd => exact absurd h (by simp)

/-- C2: singleton identity -- once `resolve(name)` has succeeded, every later
`resolve(name)` returns the identical instance and leaves the container
unchanged, whatever the registration kind behind the name. -/
theorem resolve_singleton_identity (fuel fuel' : Nat) (c c1 : Container)
    (name : String) (i : Inst)
    (h : resolveName fuel c name = .ok (i, c1)) (hf : fuel' ≠ 0) :
    resolveName fuel' c1 name = .ok (i, c1) := by
  obtain ⟨m, rfl⟩ : ∃ m, fuel' = m + 1 := ⟨fuel' - 1, by omega⟩
  rw [resolveName, resolveStep, resolveName_cached h]

/-- Witness for C2: with the pre-built value registered under `foo`, a repeat
resolution returns the instance cached by the first one, unchanged. -/
theorem resolve_singleton_identity_witness :
    resolveName 1 (cacheAdd demoValue "foo" ⟨7, false⟩) "foo" =
      .ok (⟨7, false⟩, cacheAdd demoValue "foo" ⟨7, false⟩) :=
  resolve_singleton_identity 1 1 demoValue _ "foo" ⟨7, false⟩ (by rfl) (by decide)

/-- C3: `resolveCommand` returns the "not found" sentinel (and never throws)
exactly for names never registered as commands; for a registered command it
never answers the sentinel, and a construction failure (here: the declared
dependency `whatever` was never registered) propagates to the caller as an
error instead of being converted into "not found". -/
theorem resolveCommand_sentinel_or_propagate :
    (∀ (fuel : Nat) (c : Container) (name : String),
        lookupS name c.commands = none → resolveCommand fuel c name = .ok (none, c)) ∧
    (∀ (fuel : Nat) (c : Container) (name : String) (p : Payload) (c' : Container),
        lookupS name c.commands = some p →
        resolveCommand fuel c name ≠ .ok (none, c')) ∧
    resolveCommand 3 demoCommand "command" = .error (.unresolved "whatever") := by
  refine ⟨?_, ?_, by rfl⟩
  · intro fuel c name h
    rw [resolveCommand, h]
  · intro fuel c name p c' h hcon
    rw [resolveCommand] at hcon
    split at hcon
    next hnone => exact absurd (h.symm.trans hnone) (by simp)
    next p0 hsome =>
      split at hcon
      next e hp => exact absurd hcon (by simp)
      next i c'' hp => simp at hcon

/-- Witness for C3: the empty container answers the sentinel for an
unregistered command name. -/
theorem resolveCommand_sentinel_witness :
    resolveCommand 1 ⟨[], [], [], [], 0, []⟩ "command" =
      .ok (none, ⟨[], [], [], [], 0, []⟩) :=
  resolveCommand_sentinel_or_propagate.1 1 ⟨[], [], [], [], 0, []⟩ "command" rfl

/-- C7: a first deferred registration for a fresh name succeeds and the name
then resolves normally (provided it is not otherwise bound), while a second
deferred registration for the same name fails with `DuplicateRegistration`,
whatever module path the second call supplies. -/
theorem requireDeferred_duplicate (c : Container) (name p1 p2 : String)
    (h : lookupS name c.deferred = none) :
    ∃ c', requireDeferred c name p1 = .ok c' ∧
      requireDeferred c' name p2 = .error .duplicateRegistration ∧
      (∀ fuel, fuel ≠ 0 → lookupS name c.cache = none → lookupS name c.regs = none →
        ∃ i c'', resolveName fuel c' name = .ok (i, c'')) := by
  refine ⟨{ c with deferred := (name, p1) :: c.deferred }, ?_, ?_, ?_⟩
  · rw [requireDeferred, h]
  · rw [requireDeferred]
    simp [lookupS]
  · intro fuel hf hc hr
    obtain ⟨m, rfl⟩ : ∃ m, fuel = m + 1 := ⟨fuel - 1, by omega⟩
    rw [resolveName, resolveStep]
    simp only [hc, hr]
    simp [lookupS]

/-- Witness for C7: requiring `foo` from `test` then from `test2` in the
empty container raises the duplicate-registration error, and `foo` resolves
after the first require. -/
theorem requireDeferred_duplicate_witness :
    ∃ c', requireDeferred ⟨[], [], [], [], 0, []⟩ "foo" "test" = .ok c' ∧
      requireDeferred c' "foo" "test2" = .error .duplicateRegistration ∧
      (∀ fuel, fuel ≠ 0 →
        lookupS "foo" (⟨[], [], [], [], 0, []⟩ : Container).cache = none →
        lookupS "foo" (⟨[], [], [], [], 0, []⟩ : Container).regs = none →
        ∃ i c'', resolveName fuel c' "foo" = .ok (i, c'')) :=
  requireDeferred_duplicate ⟨[], [], [], [], 0, []⟩ "foo" "test" "test2" rfl

/-- Membership in a disposal pass: an id is disposed by the pass exactly when
its hook has not already run and some cached instance with the capability
carries it. -/
lemma mem_pendingDispose (x : Nat) :
    ∀ (cache : List (String × Inst)) (log : List Nat),
      x ∈ pendingDispose cache log ↔
        x ∉ log ∧ ∃ e ∈ cache, e.2.hasDispose = true ∧ e.2.id = x := by
  intro cache
  induction cache with
  | nil => intro log; simp [pendingDispose]
  | cons e rest ih =>
    intro log
    obtain ⟨n, i⟩ := e
    rw [pendingDispose]
    split
    next hcond =>
      obtain ⟨hdisp, hnot⟩ := hcond
      constructor
      · intro hx
        rcases List.mem_cons.mp hx with hx | hx
        · subst hx
          exact ⟨hnot, ⟨(n, i), List.mem_cons_self _ _, hdisp, rfl⟩⟩
        · obtain ⟨hxlog, e', he', hd', hid'⟩ := (ih (log ++ [i.id])).mp hx
          refine ⟨fun hc => hxlog (List.mem_append_left _ hc), e', List.mem_cons_of_mem _ he', hd', hid'⟩
      · rintro ⟨hxlog, e', he', hd', hid'⟩
        rcases List.mem_cons.mp he' with he' | he'
        · subst he'
          rw [← hid']
          exact List.mem_cons_self _ _
        · by_cases hxi : x = i.id
          · subst hxi
            exact List.mem_cons_self _ _
          · refine List.mem_cons_of_mem _ ((ih (log ++ [i.id])).mpr ⟨?_, e', he', hd', hid'⟩)
            intro hc
            rcases List.mem_append.mp hc with hc | hc
            · exact hxlog hc
            · simp at hc
              exact hxi hc
    next hcond =>
      rw [ih log]
      constructor
      · rintro ⟨hxlog, e', he', hd', hid'⟩
        exact ⟨hxlog, e', List.mem_cons_of_mem _ he', hd', hid'⟩
      · rintro ⟨hxlog, e', he', hd', hid'⟩
        rcases List.mem_cons.mp he' with he' | he'
        · subst he'
          exfalso
          exact hcond ⟨hd', fun hlog => hxlog (hid' ▸ hlog)⟩
        · exact ⟨hxlog, e', he', hd', hid'⟩

/-- A disposal pass never revisits an id: the list of hook invocations it
produces has no duplicates. -/
lemma nodup_pendingDispose :
    ∀ (cache : List (String × Inst)) (log : List Nat),
      (pendingDispose cache log).Nodup := by
  intro cache
  induction cache with
  | nil => intro log; simp [pendingDispose]
  | cons e rest ih =>
    intro log
    obtain ⟨n, i⟩ := e
    rw [pendingDispose]
    split
    next hcond =>
      refine List.Nodup.cons ?_ (ih (log ++ [i.id]))
      intro hmem
      obtain ⟨hxlog, _⟩ := (mem_pendingDispose i.id rest (log ++ [i.id])).mp hmem
      exact hxlog (List.mem_append_right _ (by simp))
    next hcond => exact ih log

/-- A second disposal pass over the same cache has nothing left to do. -/
lemma pendingDispose_idem (cache : List (String × Inst)) (log : List Nat) :
    pendingDispose cache (log ++ pendingDispose cache log) = [] := by
  rw [List.eq_nil_iff_forall_not_mem]
  intro x hx
  obtain ⟨hxlog, e, he, hd, hid⟩ := (mem_pendingDispose x cache _).mp hx
  have hxpend : x ∈ pendingDispose cache log :=
    (mem_pendingDispose x cache log).mpr
      ⟨fun hc => hxlog (List.mem_append_left _ hc), e, he, hd, hid⟩
  exact hxlog (List.mem_append_right _ hxpend)

/-- C8: starting from a container whose hooks have not yet run, `dispose()`
invokes the disposal hook exactly once on every cached (i.e. actually
resolved) instance that exposes it; every hook invocation recorded by
`dispose()` belongs to such an instance (registered-but-never-resolved
entries are never disposed); and a repeated `dispose()` changes nothing
(idempotence). -/
theorem dispose_each_resolved_once (c : Container) :
    (c.disposeLog = [] → ∀ e ∈ c.cache, e.2.hasDispose = true →
      (dispose c).disposeLog.count e.2.id = 1) ∧
    (∀ x ∈ (dispose c).disposeLog,
      x ∈ c.disposeLog ∨ ∃ e ∈ c.cache, e.2.hasDispose = true ∧ e.2.id = x) ∧
    dispose (dispose c) = dispose c := by
  refine ⟨?_, ?_, ?_⟩
  · intro hlog e he hd
    have hmem : e.2.id ∈ pendingDispose c.cache [] :=
      (mem_pendingDispose e.2.id c.cache []).mpr ⟨by simp, e, he, hd, rfl⟩
    simp only [dispose, hlog, List.nil_append]
    exact List.count_eq_one_of_mem (nodup_pendingDispose c.cache []) hmem
  · intro x hx
    simp only [dispose] at hx
    rcases List.mem_append.mp hx with hx | hx
    · exact Or.inl hx
    · obtain ⟨_, e, he, hd, hid⟩ := (mem_pendingDispose x c.cache c.disposeLog).mp hx
      exact Or.inr ⟨e, he, hd, hid⟩
  · simp [dispose, pendingDispose_idem]

/-- Witness for C8: a container holding one resolved disposable instance and
one resolved non-disposable instance disposes the former's hook exactly
once. -/
theorem dispose_each_resolved_once_witness :
    ((dispose ⟨[], [], [], [("thing", ⟨0, true⟩), ("other", ⟨1, false⟩)], 2, []⟩).disposeLog.count 0 = 1) ∧
      dispose (dispose ⟨[], [], [], [("thing", ⟨0, true⟩), ("other", ⟨1, false⟩)], 2, []⟩) =
        dispose ⟨[], [], [], [("thing", ⟨0, true⟩), ("other", ⟨1, false⟩)], 2, []⟩ :=
  ⟨(dispose_each_resolved_once _).1 rfl ("thing", ⟨0, true⟩) (by decide) rfl,
    (dispose_each_resolved_once _).2.2⟩

/-- C6: argument tokens are compared case-insensitively against the trie
labels while the returned command name keeps the registered lower-case
spelling: with `a|b` registered, resolving `a` with `["B"]` returns `a|b`
and no remaining arguments (and likewise for a mixed-case token against
`sample|command`). -/
theorem buildHierarchicalCommand_case_insensitive :
    buildHierarchicalCommand regAB "a" ["B"] = some ("a|b", []) ∧
    buildHierarchicalCommand regSample "sample" ["CoMmanD", "x"] =
      some ("sample|command", ["x"]) := by
  constructor <;> decide

/-- One decorated call preserves the per-instance invariant. -/
lemma cachedCall_inv {body : Nat → List Nat → Nat} {s : CacheState}
    (h : CacheInv s) (i : Nat) (a : List Nat) :
    CacheInv (cachedCall body s i a).2 := by
  intro inst
  rw [cachedCall]
  split
  next hc => exact h inst
  next hc =>
    simp only [execCount, List.countP_append, List.countP_cons, List.countP_nil]
    by_cases hi : inst = i
    · subst hi
      have h0 := (h inst).2 hc
      rw [execCount] at h0
      simp [h0]
    · have := h inst
      rw [execCount] at this
      constructor
      · simp only [beq_iff_eq]
        have : ¬ (i = inst) := fun hh => hi hh.symm
        simp [this]
        omega
      · intro hmem
        simp only [List.mem_cons, not_or] at hmem
        have h2 := this.2 hmem.2
        have : ¬ (i = inst) := fun hh => hi hh.symm
        simp [this, h2]

/-- A run of decorated calls preserves the per-instance invariant. -/
lemma runCalls_inv {body : Nat → List Nat → Nat} :
    ∀ (calls : List (Nat × List Nat)) (s : CacheState),
      CacheInv s → CacheInv (runCalls body s calls) := by
  intro calls
  induction calls with
  | nil => intro s h; exact h
  | cons e rest ih =>
    intro s h
    obtain ⟨i, a⟩ := e
    exact ih _ (cachedCall_inv h i a)

/-- Counterexample to C9: with the identity-of-instance body, instance 1
calls first and gets `some 1`, instance 2 then runs the body, and instance
1's next call returns instance 2's result `some 2`, not its own first result
`some 1` -- the closure variable `result` is shared across instances. -/
theorem cache_not_per_instance :
    (cachedCall (fun i _ => i) initCache 1 []).1 = some 1 ∧
    (cachedCall (fun i _ => i)
        (cachedCall (fun i _ => i) (cachedCall (fun i _ => i) initCache 1 []).2 2 []).2
        1 []).1 = some 2 := by
  constructor <;> decide

/-- C9 as amended: on any single instance the original body runs at most
once over any sequence of decorated calls, and a call on an instance whose
flag is already set executes nothing and returns the shared cached result
unchanged, whatever arguments it passes -- but that shared result is the
most recent execution by any instance, not necessarily the calling
instance's own first result. -/
theorem cache_body_runs_at_most_once :
    (∀ (body : Nat → List Nat → Nat) (calls : List (Nat × List Nat)) (inst : Nat),
      execCount (runCalls body initCache calls) inst ≤ 1) ∧
    (∀ (body : Nat → List Nat → Nat) (s : CacheState) (inst : Nat) (args : List Nat),
      inst ∈ s.called → cachedCall body s inst args = (s.result, s)) := by
  constructor
  · intro body calls inst
    exact (runCalls_inv calls initCache (by intro i; simp [execCount, initCache])
      inst).1
  · intro body s inst args h
    rw [cachedCall, if_pos h]

/-- Witness for the amended C9: after instance 1 calls twice, the body has
run exactly once, and the flagged second call returned the cached result. -/
theorem cache_body_runs_at_most_once_witness :
    execCount (runCalls (fun i _ => i) initCache [(1, []), (1, [5])]) 1 ≤ 1 ∧
      cachedCall (fun i _ => i) ⟨some 1, [1], [(1, [])]⟩ 1 [5] =
        (some 1, ⟨some 1, [1], [(1, [])]⟩) :=
  ⟨cache_body_runs_at_most_once.1 (fun i _ => i) [(1, []), (1, [5])] 1,
    cache_body_runs_at_most_once.2 (fun i _ => i) ⟨some 1, [1], [(1, [])]⟩ 1 [5]
      (by decide)⟩

/-- Deleting a key removes it from the map. -/
lemma lookupS_filter_ne (devId : String) :
    ∀ l : List (String × Device), lookupS devId (l.filter (fun e => e.1 != devId)) = none := by
  intro l
  induction l with
  | nil => rfl
  | cons e rest ih =>
    obtain ⟨k, d⟩ := e
    by_cases hk : k = devId
    · subst hk
      simp [List.filter, ih]
    · have hne : (k != devId) = true := by simp [hk]
      simp only [List.filter, hne, lookupS]
      rw [if_neg (fun hh => hk hh.symm)]
      exact ih

/-- C10: `removeDevice` with an identifier absent from the devices map is a
no-op (the state, hence the map and both signal logs, is unchanged); with a
present identifier it deletes the mapping and dispatches `deviceLost`
exactly once with the removed device, leaving `deviceFound` untouched. -/
theorem removeDevice_absent_noop_present_lost (s : DDState) (devId : String) :
    (lookupS devId s.devices = none → removeDevice s devId = s) ∧
    (∀ d, lookupS devId s.devices = some d →
      (removeDevice s devId).lostLog = s.lostLog ++ [d] ∧
      lookupS devId (removeDevice s devId).devices = none ∧
      (removeDevice s devId).foundLog = s.foundLog ∧
      (removeDevice s devId).devices = s.devices.filter (fun e => e.1 != devId)) := by
  constructor
  · intro h
    rw [removeDevice, h]
  · intro d h
    rw [removeDevice, h]
    exact ⟨rfl, lookupS_filter_ne devId s.devices, rfl, rfl⟩

/-- Witness for C10: removing an unknown identifier leaves the state intact,
and removing a present one logs exactly one `deviceLost` dispatch. -/
theorem removeDevice_absent_noop_present_lost_witness :
    removeDevice ⟨[("a", ⟨"a"⟩)], [], []⟩ "b" = ⟨[("a", ⟨"a"⟩)], [], []⟩ ∧
      (removeDevice ⟨[("a", ⟨"a"⟩)], [], []⟩ "a").lostLog = [⟨"a"⟩] :=
  ⟨(removeDevice_absent_noop_present_lost _ "b").1 (by decide),
    ((removeDevice_absent_noop_present_lost ⟨[("a", ⟨"a"⟩)], [], []⟩ "a").2 ⟨"a"⟩
      (by decide)).1⟩

end CliCore
